import Mathlib

/-!
Verification of the `telegram-init-data` core protocol: canonicalization,
signing and validation of signed init-data payloads.

The repository ships the core as a library (`sign`, `validate`, `is_valid`,
`parse`, `hash_token`, `sign_data`); the files present under `examples/` are
orchestration glue that calls into it.  The core itself is therefore embedded
here from the specification document: every definition whose doc comment
starts with `Modelled from the spec:` is a faithful rendering of the spec's
description of the missing library code.

Modelling conventions:
- wire strings and field values are Lean `String`s; the byte-level operations
  work on `List Char` (codepoints; for the ASCII data of this protocol the
  codepoint order coincides with byte order, and UTF-8 preserves codepoint
  order, so byte-lexicographic and codepoint-lexicographic sorting agree);
- the keyed digest (HMAC-SHA256 with the derived key) is abstracted as a
  parameter `sd : String → String → String` (check string, secret → hex
  signature): none of the claims proved here depend on the digest's
  internals, only on its determinism, which function application gives;
- exceptions become `Except ValidationError`;
- per §9 of the spec the space-encoding choice is an open protocol constant;
  this model fixes `%20` (plain percent-encoding, `+` is an ordinary
  reserved character) in both directions.
-/

namespace TelegramInitData

/-- Modelled from the spec (§7): the error taxonomy of the validation
pipeline.  All kinds are subtypes of one umbrella category; the umbrella is
the inductive itself. -/
inductive ValidationError where
  | MalformedPayload
  | MissingSignature
  | MissingRequiredField
  | InvalidSignature
  | ExpiredPayload
deriving DecidableEq, Repr

/-- Modelled from the spec (§3): the reserved signature field name (the
`hash=` field of the wire example in §8). -/
def sigField : String := "hash"

/-- Modelled from the spec (§3, §8): the Unix-timestamp field used for
expiration (`auth_date` in the wire example in §8). -/
def tsField : String := "auth_date"

/-- Hex digit characters, lowercase, as required for signatures. -/
def hexDigitChar (n : Nat) : Char :=
  if n < 10 then Char.ofNat (48 + n) else Char.ofNat (87 + n)

/-- Value of one hex digit character (both cases accepted on decode). -/
def hexVal (c : Char) : Option Nat :=
  if '0' ≤ c ∧ c ≤ '9' then some (c.toNat - 48)
  else if 'a' ≤ c ∧ c ≤ 'f' then some (c.toNat - 87)
  else if 'A' ≤ c ∧ c ≤ 'F' then some (c.toNat - 55)
  else none

/-- Characters left untouched by percent-encoding (RFC 3986 unreserved). -/
def isUnreserved (c : Char) : Bool :=
  c.isAlphanum || c = '-' || c = '_' || c = '.' || c = '~'

/-- Modelled from the spec (§4.1): percent-encoding of one character.
Characters above the byte range are passed through (the wire protocol's
data is ASCII; see the file comment). -/
def encChar (c : Char) : List Char :=
  if isUnreserved c then [c]
  else if c.toNat < 256 then
    ['%', hexDigitChar (c.toNat / 16), hexDigitChar (c.toNat % 16)]
  else [c]

/-- Modelled from the spec (§4.1): percent-encoding of a character list. -/
def percentEncodeL : List Char → List Char
  | [] => []
  | c :: rest => encChar c ++ percentEncodeL rest

/-- Modelled from the spec (§4.1): percent-decoding.  Fails (`none`) when a
`%` is not followed by two hex digits — the "decoding is invalid" case of
`MalformedPayload`. -/
def percentDecodeL : List Char → Option (List Char)
  | [] => some []
  | c :: rest =>
    if c = '%' then
      match rest with
      | a :: b :: rest2 =>
        match hexVal a, hexVal b with
        | some ha, some hb =>
          (percentDecodeL rest2).map (fun r => Char.ofNat (16 * ha + hb) :: r)
        | _, _ => none
      | _ => none
    else (percentDecodeL rest).map (fun r => c :: r)

/-- Join character lists with a single separator character, no trailing
separator. -/
def joinSep (sep : Char) : List (List Char) → List Char
  | [] => []
  | [p] => p
  | p :: ps => p ++ sep :: joinSep sep ps

/-- Split a character list on every occurrence of a separator. -/
def splitOnChar (sep : Char) : List Char → List (List Char)
  | [] => [[]]
  | c :: rest =>
    if c = sep then [] :: splitOnChar sep rest
    else
      match splitOnChar sep rest with
      | [] => [[c]]
      | s :: ss => (c :: s) :: ss

/-- Split a segment at its first `=`; `none` when there is no `=`. -/
def splitFirstEq : List Char → Option (List Char × List Char)
  | [] => none
  | c :: rest =>
    if c = '=' then some ([], rest)
    else (splitFirstEq rest).map (fun p => (c :: p.1, p.2))

/-- Modelled from the spec (§4.1): encode one field as
`urlEncode(name) "=" urlEncode(value)`. -/
def segOf (p : String × String) : List Char :=
  percentEncodeL p.1.data ++ '=' :: percentEncodeL p.2.data

/-- Modelled from the spec (§4.1): `serialize(fields) -> wireString`, fields
joined with `&`. -/
def serialize (fields : List (String × String)) : String :=
  ⟨joinSep '&' (fields.map segOf)⟩

/-- Modelled from the spec (§4.1): parse one `name=value` segment; `none` is
the malformed case (no `=`, or invalid percent-decoding of name or value). -/
def parseSegment (seg : List Char) : Option (String × String) :=
  match splitFirstEq seg with
  | none => none
  | some (n, v) =>
    match percentDecodeL n, percentDecodeL v with
    | some n2, some v2 => some (⟨n2⟩, ⟨v2⟩)
    | _, _ => none

/-- Parse a list of segments, failing if any single segment is malformed. -/
def parseSegments : List (List Char) → Option (List (String × String))
  | [] => some []
  | s :: rest =>
    match parseSegment s, parseSegments rest with
    | some p, some ps => some (p :: ps)
    | _, _ => none

/-- Modelled from the spec (§4.1): `deserialize(wireString) -> fields`.
Splits on `&`, parses each segment, and rejects duplicated field names with
`MalformedPayload`. -/
def deserialize (w : String) : Except ValidationError (List (String × String)) :=
  match parseSegments (splitOnChar '&' w.data) with
  | none => Except.error ValidationError.MalformedPayload
  | some fields =>
    if (fields.map Prod.fst).Nodup then Except.ok fields
    else Except.error ValidationError.MalformedPayload

/-- Modelled from the spec (§9, §4.2 step 3): accumulated XOR/OR difference
of two byte strings, the core of the fixed-time comparison.  A length
mismatch contributes a nonzero difference. -/
def ctDiff : List Char → List Char → Nat
  | [], [] => 0
  | x :: xs, y :: ys => (x.toNat ^^^ y.toNat) ||| ctDiff xs ys
  | _, _ => 1

/-- Iteration count of `ctDiff`: how many byte pairs the comparison loop
touches.  Used to state the constant-time property (the traversal length is
a function of the input lengths alone, never of their contents). -/
def ctDiffSteps : List Char → List Char → Nat
  | _ :: xs, _ :: ys => 1 + ctDiffSteps xs ys
  | _, _ => 0

/-- Modelled from the spec (§4.2 step 3, §9): the constant-time equality
check on signatures — the accumulated difference must be zero. -/
def ctEq (a b : String) : Bool := ctDiff a.data b.data = 0

/-- Ordering of fields by field name, ascending (byte-lexicographic; see the
file comment for why codepoint order is byte order here). -/
def nameLe (a b : String × String) : Prop := a.1 ≤ b.1

instance : DecidableRel nameLe :=
  fun a b => inferInstanceAs (Decidable (a.1 ≤ b.1))

instance : IsTotal (String × String) nameLe :=
  ⟨fun a b => le_total a.1 b.1⟩

instance : IsTrans (String × String) nameLe :=
  ⟨fun _ _ _ h1 h2 => le_trans h1 h2⟩

/-- One line of the canonical check string: `name=value` (raw, undecoded
rendering — canonicalization uses the decoded values as-is). -/
def renderField (p : String × String) : List Char :=
  p.1.data ++ '=' :: p.2.data

/-- Modelled from the spec (§3, §4.2): `buildCheckString(fields)` — the
field set minus the signature field, sorted by name ascending, rendered as
`name=value` and joined with a single newline, no trailing newline. -/
def buildCheckString (fields : List (String × String)) : String :=
  ⟨joinSep '\n'
    ((List.insertionSort nameLe
      (fields.filter (fun p => p.1 ≠ sigField))).map renderField)⟩

/-- Set (or overwrite) a field: all entries under that name are dropped and
a single fresh entry is appended. -/
def setField (fields : List (String × String)) (name v : String) :
    List (String × String) :=
  fields.filter (fun p => p.1 ≠ name) ++ [(name, v)]

/-- First value stored under a name, if any. -/
def lookupField (name : String) : List (String × String) → Option String
  | [] => none
  | p :: rest => if p.1 = name then some p.2 else lookupField name rest

/-- Little-endian decimal digits of `n`, with explicit structural fuel (any
fuel of at least `n` is enough). -/
def natDigitsRev : Nat → Nat → List Char
  | 0, _ => []
  | _ + 1, 0 => []
  | fuel + 1, n + 1 =>
    hexDigitChar ((n + 1) % 10) :: natDigitsRev fuel ((n + 1) / 10)

/-- Decimal rendering of a natural number. -/
def renderNat (n : Nat) : List Char :=
  if n = 0 then ['0'] else (natDigitsRev n n).reverse

/-- Decimal rendering of an integer (Python `str(int)`). -/
def renderInt (i : Int) : List Char :=
  if i < 0 then '-' :: renderNat (-i).toNat else renderNat i.toNat

/-- Value of one decimal digit character. -/
def digitVal (c : Char) : Option Nat :=
  if '0' ≤ c ∧ c ≤ '9' then some (c.toNat - 48) else none

/-- Accumulating decimal parse; fails on any non-digit. -/
def parseNatAux : Nat → List Char → Option Nat
  | acc, [] => some acc
  | acc, c :: rest =>
    match digitVal c with
    | some d => parseNatAux (10 * acc + d) rest
    | none => none

/-- Parse a nonempty all-digit character list as a natural number. -/
def parseNatL (l : List Char) : Option Nat :=
  if l = [] then none else parseNatAux 0 l

/-- Modelled from the spec (§4.2 step 4): parse the timestamp field as an
integer; `none` is the non-numeric `MalformedPayload` case. -/
def parseIntL (l : List Char) : Option Int :=
  match l with
  | [] => none
  | c :: rest =>
    if c = '-' then (parseNatL rest).map (fun n => -(n : Int))
    else (parseNatL (c :: rest)).map (fun n => (n : Int))

/-- Modelled from the spec (§4.2): `sign(fields, secret, now)` — overwrite
the timestamp field with `now`, build the check string, compute the digest
`sd` with the derived key (abstracted; see the file comment), set the
signature field and serialize. -/
def sign (sd : String → String → String) (fields : List (String × String))
    (secret : String) (now : Int) : String :=
  let fs := setField fields tsField ⟨renderInt now⟩
  serialize (setField fs sigField (sd (buildCheckString fs) secret))

/-- Modelled from the spec (§4.2): `validate(wireString, secret, options)`.
The pipeline is: deserialize; require the signature field; recompute the
check string and digest and compare in constant time; when `expiresIn ≠ 0`
require and parse the timestamp and reject expired or future-dated
payloads (`now - ts > expiresIn` or `ts > now`); succeed with `()`. -/
def validate (sd : String → String → String) (w secret : String)
    (expiresIn : Nat) (now : Int) : Except ValidationError Unit :=
  match deserialize w with
  | Except.error e => Except.error e
  | Except.ok fields =>
    match lookupField sigField fields with
    | none => Except.error ValidationError.MissingSignature
    | some sig =>
      if ctEq (sd (buildCheckString fields) secret) sig then
        if expiresIn = 0 then Except.ok ()
        else
          match lookupField tsField fields with
          | none => Except.error ValidationError.MissingRequiredField
          | some ts =>
            match parseIntL ts.data with
            | none => Except.error ValidationError.MalformedPayload
            | some t =>
              if now - t > (expiresIn : Int) ∨ t > now then
                Except.error ValidationError.ExpiredPayload
              else Except.ok ()
      else Except.error ValidationError.InvalidSignature

/-- Modelled from the spec (§4.2): `isValid` — identical logic to
`validate` with every failure kind collapsed to `false`.  It is a total
function of its input, which is the embedding of "never raises". -/
def is_valid (sd : String → String → String) (w secret : String)
    (expiresIn : Nat) (now : Int) : Bool :=
  match validate sd w secret expiresIn now with
  | Except.ok _ => true
  | Except.error _ => false

/-- Modelled from the spec (§8 example) and the examples' comments
("1 hour instead of default 24 hours"): the options argument is optional
and defaults to a 24-hour window, `expires_in = 86400`. -/
def defaultExpiresIn : Nat := 86400

/-- Modelled from the spec: `validate` with its optional options argument;
`none` means the argument was omitted. -/
def validateOpt (sd : String → String → String) (w secret : String)
    (opts : Option Nat) (now : Int) : Except ValidationError Unit :=
  validate sd w secret (opts.getD defaultExpiresIn) now

/-- Modelled from the spec: `is_valid` with its optional options argument. -/
def is_validOpt (sd : String → String → String) (w secret : String)
    (opts : Option Nat) (now : Int) : Bool :=
  is_valid sd w secret (opts.getD defaultExpiresIn) now

/-- Modelled from the examples (`basic_usage.py`, `fastapi_example.py`): a
primitive JSON value as found inside the `user` mapping. -/
inductive JPrim where
  | js (s : String)
  | ji (n : Int)
  | jb (b : Bool)
deriving DecidableEq, Repr

/-- Minimal JSON string escaping (backslash and double quote). -/
def escChar (c : Char) : List Char :=
  if c = '\\' ∨ c = '"' then ['\\', c] else [c]

/-- Escape a whole string for JSON rendering. -/
def escString : List Char → List Char
  | [] => []
  | c :: rest => escChar c ++ escString rest

/-- Render one primitive JSON value (Python `json.dumps` conventions:
`true` / `false` lowercase, plain decimal integers). -/
def JPrim.render : JPrim → List Char
  | JPrim.js s => '"' :: escString s.data ++ ['"']
  | JPrim.ji n => renderInt n
  | JPrim.jb true => ['t', 'r', 'u', 'e']
  | JPrim.jb false => ['f', 'a', 'l', 's', 'e']

/-- Render the members of a flat JSON object, `", "`-separated with `": "`
after each key (Python `json.dumps` default separators). -/
def renderMembers : List (String × JPrim) → List Char
  | [] => []
  | [m] => '"' :: escString m.1.data ++ '"' :: ':' :: ' ' :: m.2.render
  | m :: ms =>
    '"' :: escString m.1.data ++ '"' :: ':' :: ' ' :: m.2.render
      ++ ',' :: ' ' :: renderMembers ms

/-- Modelled from the examples: JSON-encode a flat mapping (the shape of the
`user` value in both example files) the way `json.dumps` renders it. -/
def renderObj (fs : List (String × JPrim)) : List Char :=
  '\x7b' :: renderMembers fs ++ ['\x7d']

/-- Modelled from the examples: the values `sign` accepts at its public
interface — plain strings, structured mappings (JSON-encoded on
serialization), and datetimes (held as their Unix-seconds instant). -/
inductive FieldValue where
  | fstr (s : String)
  | fobj (fs : List (String × JPrim))
  | ftime (secs : Int)
deriving DecidableEq, Repr

/-- Modelled from the examples: coerce a public-interface value to the wire
string `sign` serializes — mappings are JSON-encoded, datetimes become
Unix-seconds decimal integers. -/
def FieldValue.encode : FieldValue → String
  | FieldValue.fstr s => s
  | FieldValue.fobj fs => ⟨renderObj fs⟩
  | FieldValue.ftime secs => ⟨renderInt secs⟩

/-- Modelled from the examples: the `now` argument of `sign`, either an
integer timestamp or a datetime (held as its Unix-seconds instant, which is
what Python's `int(dt.timestamp())` conversion produces). -/
inductive TimeArg where
  | unix (n : Int)
  | dt (secs : Int)
deriving DecidableEq, Repr

/-- Unix-seconds value of a `now` argument. -/
def TimeArg.toUnix : TimeArg → Int
  | TimeArg.unix n => n
  | TimeArg.dt secs => secs

/-- Modelled from the examples (`sign(init_data, bot_token, datetime.now())`
with a dict-valued `user`): the public interface of `sign`, coercing each
field value and the `now` argument before the core signing path. -/
def signPublic (sd : String → String → String)
    (fields : List (String × FieldValue)) (secret : String)
    (now : TimeArg) : String :=
  sign sd (fields.map (fun p => (p.1, p.2.encode))) secret now.toUnix

/-- A concrete stand-in digest used only to instantiate witnesses and
counterexamples on explicit inputs. -/
def demoDigest (_checkString _secret : String) : String := "sig"

/-! ### Codec lemmas: percent-encoding roundtrip and separator safety -/

theorem hexVal_hexDigitChar : ∀ n, n < 16 → hexVal (hexDigitChar n) = some n := by
  decide

theorem digitVal_hexDigitChar : ∀ n, n < 10 → digitVal (hexDigitChar n) = some n := by
  decide

theorem percentDecodeL_cons_ne (c : Char) (rest : List Char) (hc : c ≠ '%') :
    percentDecodeL (c :: rest) = (percentDecodeL rest).map (fun r => c :: r) := by
  cases rest with
  | nil => simp [percentDecodeL, hc]
  | cons a tl =>
    cases tl with
    | nil => simp [percentDecodeL, hc]
    | cons b tl2 => simp [percentDecodeL, hc]

theorem percentDecodeL_encChar (c : Char) (rest : List Char) :
    percentDecodeL (encChar c ++ rest) = (percentDecodeL rest).map (fun r => c :: r) := by
  by_cases hu : isUnreserved c
  · have hc : c ≠ '%' := by
      intro h
      rw [h] at hu
      simp [isUnreserved] at hu
    simp [encChar, hu, percentDecodeL_cons_ne c rest hc]
  · by_cases hb : c.toNat < 256
    · have h16 : c.toNat / 16 < 16 := by omega
      have h16b : c.toNat % 16 < 16 := Nat.mod_lt _ (by norm_num)
      simp only [encChar, hu, hb, if_true, if_false, Bool.false_eq_true,
        List.cons_append, List.nil_append]
      rw [percentDecodeL]
      simp only [if_pos rfl, hexVal_hexDigitChar _ h16, hexVal_hexDigitChar _ h16b]
      rw [Nat.div_add_mod, Char.ofNat_toNat]
      simp
    · have hc : c ≠ '%' := by
        intro h
        rw [h] at hb
        exact hb (by decide)
      simp [encChar, hu, hb, percentDecodeL_cons_ne c rest hc]

theorem percentDecodeL_percentEncodeL (l : List Char) :
    percentDecodeL (percentEncodeL l) = some l := by
  induction l with
  | nil => rfl
  | cons c rest ih => simp [percentEncodeL, percentDecodeL_encChar, ih]

theorem mem_encChar (c x : Char) (hx : x ∈ encChar c) :
    isUnreserved x = true ∨ 256 ≤ x.toNat ∨ x = '%' ∨ ∃ n, n < 16 ∧ x = hexDigitChar n := by
  unfold encChar at hx
  by_cases hu : isUnreserved c
  · rw [if_pos hu] at hx
    simp at hx
    exact Or.inl (hx ▸ hu)
  · rw [if_neg hu] at hx
    by_cases hb : c.toNat < 256
    · rw [if_pos hb] at hx
      simp at hx
      rcases hx with h | h | h
      · exact Or.inr (Or.inr (Or.inl h))
      · exact Or.inr (Or.inr (Or.inr ⟨c.toNat / 16, by omega, h⟩))
      · exact Or.inr (Or.inr (Or.inr ⟨c.toNat % 16, Nat.mod_lt _ (by norm_num), h⟩))
    · rw [if_neg hb] at hx
      simp at hx
      exact Or.inr (Or.inl (hx ▸ le_of_not_lt hb))

theorem not_mem_percentEncodeL (s : Char) (hs : isUnreserved s = false)
    (h256 : s.toNat < 256) (hp : s ≠ '%')
    (hhex : ∀ n, n < 16 → hexDigitChar n ≠ s) (l : List Char) :
    s ∉ percentEncodeL l := by
  induction l with
  | nil => simp [percentEncodeL]
  | cons c rest ih =>
    simp only [percentEncodeL, List.mem_append]
    rintro (h | h)
    · rcases mem_encChar c s h with h1 | h1 | h1 | ⟨n, hn, h1⟩
      · rw [hs] at h1; cases h1
      · omega
      · exact hp h1
      · exact hhex n hn h1.symm
    · exact ih h

theorem amp_not_mem_percentEncodeL (l : List Char) : '&' ∉ percentEncodeL l :=
  not_mem_percentEncodeL '&' (by decide) (by decide) (by decide) (by decide) l

theorem eqc_not_mem_percentEncodeL (l : List Char) : '=' ∉ percentEncodeL l :=
  not_mem_percentEncodeL '=' (by decide) (by decide) (by decide) (by decide) l

theorem amp_not_mem_segOf (p : String × String) : '&' ∉ segOf p := by
  simp only [segOf, List.mem_append, List.mem_cons]
  rintro (h | h | h)
  · exact amp_not_mem_percentEncodeL _ h
  · cases h
  · exact amp_not_mem_percentEncodeL _ h

/-! ### Wire-format lemmas: split/join and the serialize/deserialize roundtrip -/

theorem splitOnChar_ne_nil (sep : Char) (l : List Char) : splitOnChar sep l ≠ [] := by
  induction l with
  | nil => simp [splitOnChar]
  | cons c rest ih =>
    by_cases hc : c = sep
    · simp [splitOnChar, hc]
    · simp only [splitOnChar, if_neg hc]
      cases h : splitOnChar sep rest with
      | nil => exact absurd h ih
      | cons s ss => simp

theorem splitOnChar_not_mem (sep : Char) (p : List Char) (hp : sep ∉ p) :
    splitOnChar sep p = [p] := by
  induction p with
  | nil => rfl
  | cons c rest ih =>
    have hc : c ≠ sep := fun h => hp (h ▸ List.mem_cons_self c rest)
    have ihr := ih (fun h => hp (List.mem_cons_of_mem c h))
    simp [splitOnChar, hc, ihr]

theorem splitOnChar_append (sep : Char) (p r : List Char) (hp : sep ∉ p) :
    splitOnChar sep (p ++ sep :: r) = p :: splitOnChar sep r := by
  induction p with
  | nil => simp [splitOnChar]
  | cons c rest ih =>
    have hc : c ≠ sep := fun h => hp (h ▸ List.mem_cons_self c rest)
    have ihr := ih (fun h => hp (List.mem_cons_of_mem c h))
    simp [splitOnChar, hc, ihr]

theorem splitOnChar_joinSep (sep : Char) (parts : List (List Char))
    (hne : parts ≠ []) (hall : ∀ p ∈ parts, sep ∉ p) :
    splitOnChar sep (joinSep sep parts) = parts := by
  induction parts with
  | nil => exact absurd rfl hne
  | cons p ps ih =>
    cases ps with
    | nil =>
      rw [joinSep]
      exact splitOnChar_not_mem sep p (hall p (List.mem_cons_self p []))
    | cons q qs =>
      show splitOnChar sep (p ++ sep :: joinSep sep (q :: qs)) = p :: q :: qs
      rw [splitOnChar_append sep p _ (hall p (List.mem_cons_self p _))]
      rw [ih (by simp) (fun x hx => hall x (List.mem_cons_of_mem p hx))]

theorem splitFirstEq_append (n v : List Char) (hn : '=' ∉ n) :
    splitFirstEq (n ++ '=' :: v) = some (n, v) := by
  induction n with
  | nil => simp [splitFirstEq]
  | cons c m ih =>
    have hc : c ≠ '=' := fun h => hn (h ▸ List.mem_cons_self c m)
    have ihr := ih (fun h => hn (List.mem_cons_of_mem c h))
    simp [splitFirstEq, hc, ihr]

theorem parseSegment_segOf (p : String × String) : parseSegment (segOf p) = some p := by
  unfold parseSegment segOf
  rw [splitFirstEq_append _ _ (eqc_not_mem_percentEncodeL p.1.data)]
  simp [percentDecodeL_percentEncodeL]

theorem parseSegments_map_segOf (fields : List (String × String)) :
    parseSegments (fields.map segOf) = some fields := by
  induction fields with
  | nil => rfl
  | cons p ps ih => simp [parseSegments, parseSegment_segOf, ih]

theorem deserialize_serialize (fields : List (String × String))
    (hne : fields ≠ []) (hnodup : (fields.map Prod.fst).Nodup) :
    deserialize (serialize fields) = Except.ok fields := by
  unfold deserialize serialize
  have hdata : (⟨joinSep '&' (fields.map segOf)⟩ : String).data
      = joinSep '&' (fields.map segOf) := rfl
  rw [hdata]
  rw [splitOnChar_joinSep '&' (fields.map segOf) (by simpa using hne)
    (fun s hs => by
      obtain ⟨p, _, rfl⟩ := List.mem_map.mp hs
      exact amp_not_mem_segOf p)]
  rw [parseSegments_map_segOf]
  simp [hnodup]

/-! ### Constant-time comparison lemmas -/

theorem nat_or_eq_zero_iff (a b : Nat) : a ||| b = 0 ↔ a = 0 ∧ b = 0 := by
  constructor
  · intro h
    refine ⟨Nat.zero_of_testBit_eq_false fun i => ?_,
      Nat.zero_of_testBit_eq_false fun i => ?_⟩
    · have h2 := congrArg (fun n => Nat.testBit n i) h
      simp only [Nat.testBit_lor, Nat.zero_testBit, Bool.or_eq_false_iff] at h2
      exact h2.1
    · have h2 := congrArg (fun n => Nat.testBit n i) h
      simp only [Nat.testBit_lor, Nat.zero_testBit, Bool.or_eq_false_iff] at h2
      exact h2.2
  · rintro ⟨rfl, rfl⟩
    rfl

theorem char_xor_eq_zero (x y : Char) : x.toNat ^^^ y.toNat = 0 ↔ x = y :=
  Nat.xor_eq_zero.trans
    ⟨fun h => Char.eq_of_val_eq (UInt32.toNat.inj h), fun h => h ▸ rfl⟩

theorem ctDiff_eq_zero_iff (a : List Char) : ∀ b, ctDiff a b = 0 ↔ a = b := by
  induction a with
  | nil =>
    intro b
    cases b with
    | nil => simp [ctDiff]
    | cons y ys => simp [ctDiff]
  | cons x xs ih =>
    intro b
    cases b with
    | nil => simp [ctDiff]
    | cons y ys =>
      simp only [ctDiff, nat_or_eq_zero_iff, char_xor_eq_zero, ih ys, List.cons.injEq]

theorem ctEq_eq_true_iff (a b : String) : ctEq a b = true ↔ a = b := by
  unfold ctEq
  rw [decide_eq_true_eq, ctDiff_eq_zero_iff]
  constructor
  · intro h
    cases a
    cases b
    exact congrArg String.mk h
  · intro h
    rw [h]

theorem ctEq_self (a : String) : ctEq a a = true := (ctEq_eq_true_iff a a).mpr rfl

theorem ctDiffSteps_eq_min (a : List Char) : ∀ b, ctDiffSteps a b = min a.length b.length := by
  induction a with
  | nil =>
    intro b
    cases b <;> simp [ctDiffSteps]
  | cons x xs ih =>
    intro b
    cases b with
    | nil => simp [ctDiffSteps]
    | cons y ys =>
      simp [ctDiffSteps, ih ys, Nat.succ_min_succ, Nat.add_comm]

/-! ### Decimal rendering/parsing roundtrip -/

theorem parseNatAux_append_digit (xs : List Char) (c : Char) (acc : Nat) :
    parseNatAux acc (xs ++ [c]) =
      match parseNatAux acc xs with
      | some a => (digitVal c).map (fun d => 10 * a + d)
      | none => none := by
  induction xs generalizing acc with
  | nil =>
    simp only [List.nil_append, parseNatAux]
    cases digitVal c <;> simp [parseNatAux]
  | cons x m ih =>
    simp only [List.cons_append, parseNatAux]
    cases hd : digitVal x <;> simp [hd, ih]

theorem parseNatAux_natDigitsRev (fuel : Nat) :
    ∀ n acc, n ≤ fuel →
      parseNatAux acc ((natDigitsRev fuel n).reverse) =
        some (acc * 10 ^ (natDigitsRev fuel n).length + n) := by
  induction fuel with
  | zero =>
    intro n acc h
    interval_cases n
    simp [natDigitsRev, parseNatAux]
  | succ f ih =>
    intro n acc h
    cases n with
    | zero => simp [natDigitsRev, parseNatAux]
    | succ m =>
      rw [natDigitsRev, List.reverse_cons, parseNatAux_append_digit]
      have hle : (m + 1) / 10 ≤ f := by
        have := Nat.div_lt_self (Nat.succ_pos m) (by norm_num : 1 < 10)
        omega
      rw [ih ((m + 1) / 10) acc hle]
      rw [digitVal_hexDigitChar _ (Nat.mod_lt _ (by norm_num))]
      simp only [Option.map, List.length_cons, List.length_reverse]
      congr 1
      have hmod := Nat.div_add_mod (m + 1) 10
      have key : ∀ A q r n2 : Nat, 10 * q + r = n2 → 10 * (A + q) + r = A * 10 + n2 := by
        intro A q r n2 hq
        omega
      rw [pow_succ, ← Nat.mul_assoc]
      exact key (acc * 10 ^ (natDigitsRev f ((m + 1) / 10)).length) ((m + 1) / 10)
        ((m + 1) % 10) (m + 1) hmod

theorem renderNat_ne_nil (n : Nat) : renderNat n ≠ [] := by
  unfold renderNat
  by_cases h : n = 0
  · simp [h]
  · rw [if_neg h]
    cases n with
    | zero => exact absurd rfl h
    | succ m => simp [natDigitsRev]

theorem parseNatL_renderNat (n : Nat) : parseNatL (renderNat n) = some n := by
  by_cases h : n = 0
  · subst h
    rfl
  · unfold renderNat parseNatL
    rw [if_neg h]
    have hne : (natDigitsRev n n).reverse ≠ [] := by
      cases n with
      | zero => exact absurd rfl h
      | succ m => simp [natDigitsRev]
    rw [if_neg hne]
    rw [parseNatAux_natDigitsRev n n 0 le_rfl]
    simp

theorem mem_natDigitsRev (fuel : Nat) :
    ∀ n c, c ∈ natDigitsRev fuel n → ∃ d, d < 10 ∧ c = hexDigitChar d := by
  induction fuel with
  | zero =>
    intro n c hc
    simp [natDigitsRev] at hc
  | succ f ih =>
    intro n c hc
    cases n with
    | zero => simp [natDigitsRev] at hc
    | succ m =>
      rw [natDigitsRev] at hc
      rcases List.mem_cons.mp hc with h | h
      · exact ⟨(m + 1) % 10, Nat.mod_lt _ (by norm_num), h⟩
      · exact ih _ c h

theorem mem_renderNat (n : Nat) (c : Char) (hc : c ∈ renderNat n) :
    ∃ d, d < 10 ∧ c = hexDigitChar d := by
  unfold renderNat at hc
  by_cases h : n = 0
  · rw [if_pos h] at hc
    simp at hc
    exact ⟨0, by norm_num, by rw [hc]; rfl⟩
  · rw [if_neg h] at hc
    exact mem_natDigitsRev n n c (List.mem_reverse.mp hc)

theorem parseIntL_renderInt (i : Int) : parseIntL (renderInt i) = some i := by
  unfold renderInt
  by_cases h : i < 0
  · rw [if_pos h]
    rw [parseIntL]
    rw [if_pos rfl, parseNatL_renderNat]
    have h2 : (((-i).toNat : Nat) : Int) = -i := Int.toNat_of_nonneg (by omega)
    simp [h2]
  · rw [if_neg h]
    cases hr : renderNat i.toNat with
    | nil => exact absurd hr (renderNat_ne_nil _)
    | cons x xs =>
      have hx : x ≠ '-' := by
        obtain ⟨d, hd, hxd⟩ := mem_renderNat i.toNat x (hr ▸ List.mem_cons_self x xs)
        subst hxd
        have hall : ∀ d2, d2 < 10 → hexDigitChar d2 ≠ '-' := by decide
        exact hall d hd
      rw [parseIntL]
      rw [if_neg hx, ← hr, parseNatL_renderNat]
      simp [Int.toNat_of_nonneg (not_lt.mp h)]

/-! ### Field-set lemmas -/

theorem lookupField_append (k : String) (l1 l2 : List (String × String))
    (h : ∀ p ∈ l1, p.1 ≠ k) :
    lookupField k (l1 ++ l2) = lookupField k l2 := by
  induction l1 with
  | nil => rfl
  | cons p ps ih =>
    have hp : p.1 ≠ k := h p (List.mem_cons_self p ps)
    simp [lookupField, hp, ih (fun q hq => h q (List.mem_cons_of_mem _ hq))]

theorem mem_filter_ne (l : List (String × String)) (name : String)
    (p : String × String) (hp : p ∈ l.filter (fun q => q.1 ≠ name)) :
    p.1 ≠ name := by
  have h := List.of_mem_filter hp
  simpa using h

theorem lookupField_setField_self (l : List (String × String)) (n v : String) :
    lookupField n (setField l n v) = some v := by
  unfold setField
  rw [lookupField_append n _ _ (fun p hp => mem_filter_ne l n p hp)]
  simp [lookupField]

theorem nodup_map_fst_setField (l : List (String × String)) (n v : String)
    (h : (l.map Prod.fst).Nodup) :
    ((setField l n v).map Prod.fst).Nodup := by
  unfold setField
  rw [List.map_append]
  simp only [List.map_cons, List.map_nil]
  apply List.Nodup.append
  · exact List.Nodup.sublist (List.Sublist.map Prod.fst (List.filter_sublist l)) h
  · exact List.nodup_singleton n
  · intro a ha hb
    simp only [List.mem_singleton] at hb
    obtain ⟨p, hp, hfst⟩ := List.mem_map.mp ha
    exact mem_filter_ne l n p hp (hfst.trans hb)

theorem filter_ne_setField (fs : List (String × String)) (name v : String) :
    (setField fs name v).filter (fun p => p.1 ≠ name)
      = fs.filter (fun p => p.1 ≠ name) := by
  unfold setField
  rw [List.filter_append]
  have h1 : (fs.filter (fun p => p.1 ≠ name)).filter (fun p => p.1 ≠ name)
      = fs.filter (fun p => p.1 ≠ name) := by
    rw [List.filter_filter]
    exact List.filter_congr (fun p _ => Bool.and_self _)
  have h2 : (([(name, v)] : List (String × String)).filter
      (fun p => p.1 ≠ name)) = [] := by simp
  rw [h1, h2, List.append_nil]

theorem buildCheckString_setField_sig (fs : List (String × String)) (v : String) :
    buildCheckString (setField fs sigField v) = buildCheckString fs := by
  unfold buildCheckString
  rw [filter_ne_setField]

theorem lookupField_ts_signed (F : List (String × String)) (r v : String) :
    lookupField tsField (setField (setField F tsField r) sigField v) = some r := by
  unfold setField
  rw [List.filter_append]
  have hts : (([(tsField, r)] : List (String × String)).filter
      (fun p => p.1 ≠ sigField)) = [(tsField, r)] := by
    simp [sigField, tsField]
  rw [hts, List.append_assoc]
  rw [lookupField_append tsField _ _
    (fun p hp => mem_filter_ne F tsField p (List.mem_of_mem_filter hp))]
  simp [lookupField]

/-- The central roundtrip lemma: `validate` after `sign` over the same
secret succeeds, except exactly when a nonzero `expiresIn` window catches a
too-old or future-dated signing time. -/
theorem validate_sign_eq (sd : String → String → String)
    (F : List (String × String)) (S : String) (t : Int) (e : Nat) (now : Int)
    (h : (F.map Prod.fst).Nodup) :
    validate sd (sign sd F S t) S e now =
      if e ≠ 0 ∧ (now - t > (e : Int) ∨ t > now) then
        Except.error ValidationError.ExpiredPayload
      else Except.ok () := by
  have hnd1 : ((setField F tsField ⟨renderInt t⟩).map Prod.fst).Nodup :=
    nodup_map_fst_setField _ _ _ h
  have hnd2 : ((setField (setField F tsField ⟨renderInt t⟩) sigField
      (sd (buildCheckString (setField F tsField ⟨renderInt t⟩)) S)).map
        Prod.fst).Nodup :=
    nodup_map_fst_setField _ _ _ hnd1
  have hne : setField (setField F tsField ⟨renderInt t⟩) sigField
      (sd (buildCheckString (setField F tsField ⟨renderInt t⟩)) S) ≠ [] := by
    simp [setField]
  have hdata : (⟨renderInt t⟩ : String).data = renderInt t := rfl
  unfold sign validate
  simp only [deserialize_serialize _ hne hnd2, lookupField_setField_self,
    buildCheckString_setField_sig, ctEq_self, if_true]
  by_cases he : e = 0
  · subst he
    simp
  · simp only [if_neg he, lookupField_ts_signed, hdata, parseIntL_renderInt]
    simp [he]

/-! ### Deserialization failure characterization -/

theorem parseSegments_eq_none_iff (segs : List (List Char)) :
    parseSegments segs = none ↔ ∃ s ∈ segs, parseSegment s = none := by
  induction segs with
  | nil => simp [parseSegments]
  | cons s rest ih =>
    cases hs : parseSegment s with
    | none => simp [parseSegments, hs]
    | some p =>
      cases hr : parseSegments rest with
      | none =>
        obtain ⟨s2, hs2, h0⟩ := ih.mp hr
        simp only [parseSegments, hs, hr]
        exact iff_of_true (by trivial) ⟨s2, List.mem_cons_of_mem s hs2, h0⟩
      | some ps =>
        have hnone := ih.not.mp (by simp [hr])
        push_neg at hnone
        simp only [parseSegments, hs, hr]
        constructor
        · intro hcontra
          cases hcontra
        · rintro ⟨s2, hs2, h0⟩
          rcases List.mem_cons.mp hs2 with rfl | hmem
          · rw [hs] at h0
            cases h0
          · exact absurd h0 (by simpa using hnone s2 hmem)

theorem parseSegment_eq_none_iff (seg : List Char) :
    parseSegment seg = none ↔
      splitFirstEq seg = none ∨
        ∃ n v, splitFirstEq seg = some (n, v) ∧
          (percentDecodeL n = none ∨ percentDecodeL v = none) := by
  unfold parseSegment
  cases hsp : splitFirstEq seg with
  | none => simp
  | some nv =>
    obtain ⟨n, v⟩ := nv
    cases hn : percentDecodeL n with
    | none =>
      simp only [hn]
      exact iff_of_true (by trivial) (Or.inr ⟨n, v, rfl, Or.inl hn⟩)
    | some n2 =>
      cases hv : percentDecodeL v with
      | none =>
        simp only [hn, hv]
        exact iff_of_true (by trivial) (Or.inr ⟨n, v, rfl, Or.inr hv⟩)
      | some v2 => simp [hn, hv]

theorem deserialize_reduce_none (w : String)
    (hp : parseSegments (splitOnChar '&' w.data) = none) :
    deserialize w = Except.error ValidationError.MalformedPayload := by
  unfold deserialize
  rw [hp]

theorem deserialize_reduce_some (w : String) (fields : List (String × String))
    (hp : parseSegments (splitOnChar '&' w.data) = some fields) :
    deserialize w =
      if (fields.map Prod.fst).Nodup then Except.ok fields
      else Except.error ValidationError.MalformedPayload := by
  unfold deserialize
  rw [hp]

theorem deserialize_error_eq_malformed (w : String) (e : ValidationError)
    (h : deserialize w = Except.error e) : e = ValidationError.MalformedPayload := by
  cases hp : parseSegments (splitOnChar '&' w.data) with
  | none =>
    rw [deserialize_reduce_none w hp] at h
    injection h with h2
    exact h2.symm
  | some fields =>
    rw [deserialize_reduce_some w fields hp] at h
    by_cases hd : (fields.map Prod.fst).Nodup
    · rw [if_pos hd] at h
      cases h
    · rw [if_neg hd] at h
      injection h with h2
      exact h2.symm

theorem deserialize_error_iff (w : String) :
    (∃ e, deserialize w = Except.error e) ↔
      ((∃ s ∈ splitOnChar '&' w.data, parseSegment s = none) ∨
        (∃ fields, parseSegments (splitOnChar '&' w.data) = some fields ∧
          ¬ (fields.map Prod.fst).Nodup)) := by
  cases hp : parseSegments (splitOnChar '&' w.data) with
  | none =>
    rw [deserialize_reduce_none w hp]
    constructor
    · intro _
      exact Or.inl ((parseSegments_eq_none_iff _).mp hp)
    · intro _
      exact ⟨ValidationError.MalformedPayload, rfl⟩
  | some fields =>
    rw [deserialize_reduce_some w fields hp]
    by_cases hd : (fields.map Prod.fst).Nodup
    · rw [if_pos hd]
      constructor
      · rintro ⟨e, he⟩
        cases he
      · rintro (⟨s, hs, hnone⟩ | ⟨fields2, hf2, hnd2⟩)
        · have h0 := (parseSegments_eq_none_iff _).mpr ⟨s, hs, hnone⟩
          rw [hp] at h0
          cases h0
        · injection hf2 with h3
          exact absurd (h3 ▸ hd) hnd2
    · rw [if_neg hd]
      constructor
      · intro _
        exact Or.inr ⟨fields, rfl, hd⟩
      · intro _
        exact ⟨ValidationError.MalformedPayload, rfl⟩

/-! ### Claim theorems -/

/-- C1: for every valid field set `F` (distinct field names), secret `S` and
timestamp `T`, validating the output of `sign` with the same secret and
expiration disabled succeeds: `validate (sign F S T) S 0` raises no error. -/
theorem sign_validate_roundtrip (sd : String → String → String)
    (F : List (String × String)) (S : String) (t now : Int)
    (h : (F.map Prod.fst).Nodup) :
    validate sd (sign sd F S t) S 0 now = Except.ok () := by
  rw [validate_sign_eq sd F S t 0 now h]
  simp

theorem sign_validate_roundtrip_witness :
    (([("query_id", "abc")] : List (String × String)).map Prod.fst).Nodup ∧
      validate demoDigest (sign demoDigest [("query_id", "abc")] "secret" 100)
        "secret" 0 200 = Except.ok () :=
  ⟨by decide,
    sign_validate_roundtrip demoDigest [("query_id", "abc")] "secret" 100 200 (by decide)⟩

/-- C5 (amended): a correctly signed payload whose timestamp is strictly
greater than `now` fails with `ExpiredPayload` for every NONZERO
`expires_in`; with `expires_in = 0` the expiration check is skipped
entirely, so even a future-dated payload validates (see the
counterexample `future_timestamp_zero_expiry_accepts`). -/
theorem future_timestamp_rejected (sd : String → String → String)
    (F : List (String × String)) (S : String) (t : Int) (e : Nat) (now : Int)
    (h : (F.map Prod.fst).Nodup) (hfut : t > now) (he : e ≠ 0) :
    validate sd (sign sd F S t) S e now
      = Except.error ValidationError.ExpiredPayload := by
  rw [validate_sign_eq sd F S t e now h]
  rw [if_pos ⟨he, Or.inr hfut⟩]

theorem future_timestamp_rejected_witness :
    validate demoDigest (sign demoDigest [("query_id", "x")] "secret" 105)
      "secret" 1 100 = Except.error ValidationError.ExpiredPayload :=
  future_timestamp_rejected demoDigest [("query_id", "x")] "secret" 105 1 100
    (by decide) (by decide) (by decide)

/-- C5 counterexample: the claim as stated (future timestamps fail for EVERY
`expires_in`, including 0) is false: with `expires_in = 0` the whole
expiration step is skipped (spec §4.2 step 4 guards it behind
`expires_in ≠ 0`, and §3 says `expires_in = 0` disables expiration checking
entirely), so this correctly signed payload dated `now + 5` validates. -/
theorem future_timestamp_zero_expiry_accepts :
    validate demoDigest (sign demoDigest [("query_id", "x")] "secret" 105)
      "secret" 0 100 = Except.ok () := rfl

/-- C6: with `expires_in = 0`, `validate` performs no expiration check:
every correctly signed payload (well-formed, signature field present and
equal to the recomputed digest) validates no matter what its timestamp is —
the timestamp field is not even consulted. -/
theorem zero_expires_in_disables_expiry (sd : String → String → String)
    (w S : String) (now : Int) (fields : List (String × String)) (sig : String)
    (hdes : deserialize w = Except.ok fields)
    (hsig : lookupField sigField fields = some sig)
    (hok : sig = sd (buildCheckString fields) S) :
    validate sd w S 0 now = Except.ok () := by
  subst hok
  unfold validate
  simp only [hdes, hsig, ctEq_self, if_true]

theorem zero_expires_in_disables_expiry_witness :
    validate demoDigest "a=b&hash=sig" "secret" 0 100 = Except.ok () :=
  zero_expires_in_disables_expiry demoDigest "a=b&hash=sig" "secret" 100
    [("a", "b"), ("hash", "sig")] "sig" rfl rfl rfl

/-- C4: with `expires_in = 3600`, a correctly signed payload aged exactly
3600 seconds validates, one aged 3601 seconds fails with `ExpiredPayload`;
in general (for nonzero `expires_in` and non-future timestamps) the expiry
test is the strict inequality `now - timestamp > expires_in`. -/
theorem expiry_boundary_strict (sd : String → String → String)
    (F : List (String × String)) (S : String) (now : Int)
    (h : (F.map Prod.fst).Nodup) :
    validate sd (sign sd F S (now - 3600)) S 3600 now = Except.ok () ∧
    validate sd (sign sd F S (now - 3601)) S 3600 now
      = Except.error ValidationError.ExpiredPayload ∧
    (∀ (t : Int) (e : Nat), e ≠ 0 → t ≤ now →
      (validate sd (sign sd F S t) S e now
          = Except.error ValidationError.ExpiredPayload ↔ now - t > (e : Int))) := by
  refine ⟨?_, ?_, ?_⟩
  · rw [validate_sign_eq sd F S (now - 3600) 3600 now h]
    rw [if_neg (by push_cast; omega)]
  · rw [validate_sign_eq sd F S (now - 3601) 3600 now h]
    rw [if_pos ⟨by norm_num, Or.inl (by push_cast; omega)⟩]
  · intro t e he ht
    rw [validate_sign_eq sd F S t e now h]
    by_cases hc : now - t > (e : Int)
    · rw [if_pos ⟨he, Or.inl hc⟩]
      simpa using hc
    · rw [if_neg (by rintro ⟨_, hor | hfut⟩; exact hc hor; omega)]
      constructor
      · intro hcontra
        cases hcontra
      · intro hgt
        exact absurd hgt hc

theorem expiry_boundary_strict_witness :
    validate demoDigest (sign demoDigest [("a", "b")] "secret" (1700000000 - 3600))
        "secret" 3600 1700000000 = Except.ok () ∧
      validate demoDigest (sign demoDigest [("a", "b")] "secret" (1700000000 - 3601))
        "secret" 3600 1700000000 = Except.error ValidationError.ExpiredPayload :=
  ⟨(expiry_boundary_strict demoDigest [("a", "b")] "secret" 1700000000 (by decide)).1,
   (expiry_boundary_strict demoDigest [("a", "b")] "secret" 1700000000 (by decide)).2.1⟩

/-- C7: `is_valid` is a total Boolean function (the embedding of "never
raises"): it is `true` exactly when `validate` succeeds, so every failure
kind collapses to `false` — in particular on the empty string, a string
with no `=`, a string with duplicate field names, and a correctly signed
but expired payload — and a correctly signed, non-expired payload yields
`true`. -/
theorem is_valid_total_collapse :
    (∀ (sd : String → String → String) (w S : String) (e : Nat) (now : Int),
      is_valid sd w S e now = true ↔ validate sd w S e now = Except.ok ()) ∧
    (∀ (sd : String → String → String) (S : String) (e : Nat) (now : Int),
      is_valid sd "" S e now = false) ∧
    (∀ (sd : String → String → String) (S : String) (e : Nat) (now : Int),
      is_valid sd "noequals" S e now = false) ∧
    (∀ (sd : String → String → String) (S : String) (e : Nat) (now : Int),
      is_valid sd "a=1&a=2" S e now = false) ∧
    (∀ (sd : String → String → String) (F : List (String × String)) (S : String)
      (t : Int) (e : Nat) (now : Int),
      (F.map Prod.fst).Nodup → e ≠ 0 → now - t > (e : Int) →
      is_valid sd (sign sd F S t) S e now = false) ∧
    (∀ (sd : String → String → String) (F : List (String × String)) (S : String)
      (t : Int) (e : Nat) (now : Int),
      (F.map Prod.fst).Nodup → ¬(e ≠ 0 ∧ (now - t > (e : Int) ∨ t > now)) →
      is_valid sd (sign sd F S t) S e now = true) := by
  refine ⟨?_, ?_, ?_, ?_, ?_, ?_⟩
  · intro sd w S e now
    unfold is_valid
    cases hv : validate sd w S e now with
    | ok u => simp
    | error e2 => simp
  · intro sd S e now
    have hd : deserialize "" = Except.error ValidationError.MalformedPayload := rfl
    unfold is_valid validate
    simp only [hd]
  · intro sd S e now
    have hd : deserialize "noequals" = Except.error ValidationError.MalformedPayload := rfl
    unfold is_valid validate
    simp only [hd]
  · intro sd S e now
    have hd : deserialize "a=1&a=2" = Except.error ValidationError.MalformedPayload := rfl
    unfold is_valid validate
    simp only [hd]
  · intro sd F S t e now h he hold
    unfold is_valid
    rw [validate_sign_eq sd F S t e now h, if_pos ⟨he, Or.inl hold⟩]
  · intro sd F S t e now h hno
    unfold is_valid
    rw [validate_sign_eq sd F S t e now h, if_neg hno]

theorem is_valid_total_collapse_witness :
    is_valid demoDigest (sign demoDigest [("a", "b")] "secret" 100) "secret" 10 200
        = false ∧
      is_valid demoDigest (sign demoDigest [("a", "b")] "secret" 100) "secret" 0 200
        = true :=
  ⟨is_valid_total_collapse.2.2.2.2.1 demoDigest [("a", "b")] "secret" 100 10 200
      (by decide) (by decide) (by decide),
    is_valid_total_collapse.2.2.2.2.2 demoDigest [("a", "b")] "secret" 100 0 200
      (by decide) (by simp)⟩

/-- C9: the options argument of `validate`/`is_valid` is optional; omitting
it behaves exactly as `expires_in = 86400` — a 24-hour window that accepts
a payload aged exactly 86400 seconds and rejects one aged 86401 seconds
with `ExpiredPayload`. -/
theorem default_options_day_window :
    (∀ (sd : String → String → String) (w S : String) (now : Int),
      validateOpt sd w S none now = validate sd w S 86400 now) ∧
    (∀ (sd : String → String → String) (w S : String) (e : Nat) (now : Int),
      validateOpt sd w S (some e) now = validate sd w S e now) ∧
    (∀ (sd : String → String → String) (w S : String) (now : Int),
      is_validOpt sd w S none now = is_valid sd w S 86400 now) ∧
    (∀ (sd : String → String → String) (F : List (String × String)) (S : String)
      (now : Int), (F.map Prod.fst).Nodup →
      validateOpt sd (sign sd F S (now - 86400)) S none now = Except.ok () ∧
      validateOpt sd (sign sd F S (now - 86401)) S none now
        = Except.error ValidationError.ExpiredPayload) := by
  refine ⟨fun _ _ _ _ => rfl, fun _ _ _ _ _ => rfl, fun _ _ _ _ => rfl, ?_⟩
  intro sd F S now h
  constructor
  · show validate sd (sign sd F S (now - 86400)) S 86400 now = Except.ok ()
    rw [validate_sign_eq sd F S (now - 86400) 86400 now h]
    rw [if_neg (by push_cast; omega)]
  · show validate sd (sign sd F S (now - 86401)) S 86400 now
      = Except.error ValidationError.ExpiredPayload
    rw [validate_sign_eq sd F S (now - 86401) 86400 now h]
    rw [if_pos ⟨by norm_num, Or.inl (by push_cast; omega)⟩]

theorem default_options_day_window_witness :
    validateOpt demoDigest (sign demoDigest [("a", "b")] "secret" (500000 - 86400))
        "secret" none 500000 = Except.ok () ∧
      validateOpt demoDigest (sign demoDigest [("a", "b")] "secret" (500000 - 86401))
        "secret" none 500000 = Except.error ValidationError.ExpiredPayload :=
  default_options_day_window.2.2.2 demoDigest [("a", "b")] "secret" 500000 (by decide)

/-- C2: the signature check of `validate` is the fixed-time comparison
`ctEq` (accumulated XOR/OR differences over the full common length), and
that comparison is constant-time in the only sense a functional embedding
can express: (i) it decides exactly string equality, (ii) the number of
byte pairs its loop touches is a function of the two input LENGTHS alone,
never of their contents (no short-circuit at the first difference), and
(iii) for every parsed payload with a signature field, `validate` reports
`InvalidSignature` exactly when `ctEq` of the recomputed digest against the
provided signature is `false`. -/
theorem signature_compare_constant_time :
    (∀ a b : String, ctEq a b = true ↔ a = b) ∧
    (∀ a b c d : String, a.length = c.length → b.length = d.length →
      ctDiffSteps a.data b.data = ctDiffSteps c.data d.data) ∧
    (∀ (sd : String → String → String) (w S : String) (e : Nat) (now : Int)
      (fields : List (String × String)) (sig : String),
      deserialize w = Except.ok fields →
      lookupField sigField fields = some sig →
      (validate sd w S e now = Except.error ValidationError.InvalidSignature ↔
        ctEq (sd (buildCheckString fields) S) sig = false)) := by
  refine ⟨ctEq_eq_true_iff, ?_, ?_⟩
  · intro a b c d hac hbd
    rw [ctDiffSteps_eq_min, ctDiffSteps_eq_min]
    have h1 : a.data.length = c.data.length := hac
    have h2 : b.data.length = d.data.length := hbd
    rw [h1, h2]
  · intro sd w S e now fields sig hdes hsig
    unfold validate
    simp only [hdes, hsig]
    cases hct : ctEq (sd (buildCheckString fields) S) sig with
    | false => simp [hct]
    | true =>
      simp only [hct, if_true]
      refine iff_of_false ?_ (by simp)
      intro hcontra
      by_cases he : e = 0
      · rw [if_pos he] at hcontra
        cases hcontra
      · rw [if_neg he] at hcontra
        cases hts : lookupField tsField fields with
        | none => simp [hts] at hcontra
        | some ts =>
          simp only [hts] at hcontra
          cases hpt : parseIntL ts.data with
          | none => simp [hpt] at hcontra
          | some t =>
            simp only [hpt] at hcontra
            by_cases hexp : now - t > (e : Int) ∨ t > now
            · simp [hexp] at hcontra
            · simp [hexp] at hcontra

theorem signature_compare_constant_time_witness :
    validate demoDigest "a=b&hash=sig" "secret" 0 100
        = Except.error ValidationError.InvalidSignature ↔
      ctEq (demoDigest (buildCheckString [("a", "b"), ("hash", "sig")]) "secret")
        "sig" = false :=
  signature_compare_constant_time.2.2 demoDigest "a=b&hash=sig" "secret" 0 100
    [("a", "b"), ("hash", "sig")] "sig" rfl rfl

/-- C8: deserialization fails exactly when some `&`-segment has no `=`,
when percent-decoding of a name or value is invalid, or when a decoded
field name occurs more than once; every failure is `MalformedPayload`, and
duplicate names are rejected outright (e.g. `a=1&a=2`) rather than merged
or overwritten. -/
theorem deserialize_malformed_iff :
    (∀ (w : String) (e : ValidationError), deserialize w = Except.error e →
      e = ValidationError.MalformedPayload) ∧
    (∀ w : String, (∃ e, deserialize w = Except.error e) ↔
      ((∃ s ∈ splitOnChar '&' w.data, parseSegment s = none) ∨
        (∃ fields, parseSegments (splitOnChar '&' w.data) = some fields ∧
          ¬ (fields.map Prod.fst).Nodup))) ∧
    (∀ seg : List Char, parseSegment seg = none ↔
      splitFirstEq seg = none ∨ ∃ n v, splitFirstEq seg = some (n, v) ∧
        (percentDecodeL n = none ∨ percentDecodeL v = none)) ∧
    deserialize "a=1&a=2" = Except.error ValidationError.MalformedPayload :=
  ⟨deserialize_error_eq_malformed, deserialize_error_iff,
    parseSegment_eq_none_iff, rfl⟩

theorem deserialize_malformed_iff_witness :
    deserialize "no-separator-here" = Except.error ValidationError.MalformedPayload ∧
      ValidationError.MalformedPayload = ValidationError.MalformedPayload :=
  ⟨rfl, deserialize_malformed_iff.1 "no-separator-here"
    ValidationError.MalformedPayload rfl⟩

/-- C10: `sign` accepts non-string values at its public interface: a
structured-mapping value (the `user` dict) is JSON-encoded into a string
during serialization, a datetime for the timestamp field or the `now`
argument is converted to its Unix-seconds integer, and the resulting wire
string validates against the same secret (with expiration disabled). -/
theorem sign_public_interface_coercions :
    (∀ (sd : String → String → String) (fields : List (String × FieldValue))
      (secret : String) (now : TimeArg),
      signPublic sd fields secret now
        = sign sd (fields.map (fun p => (p.1, p.2.encode))) secret now.toUnix) ∧
    (∀ fs : List (String × JPrim),
      FieldValue.encode (FieldValue.fobj fs) = ⟨renderObj fs⟩) ∧
    (∀ secs : Int, FieldValue.encode (FieldValue.ftime secs) = ⟨renderInt secs⟩ ∧
      TimeArg.toUnix (TimeArg.dt secs) = secs) ∧
    (∀ (sd : String → String → String) (qid secret : String)
      (u : List (String × JPrim)) (t : Int) (nowArg : TimeArg) (now2 : Int),
      validate sd
        (signPublic sd
          [("query_id", FieldValue.fstr qid), ("user", FieldValue.fobj u),
            ("auth_date", FieldValue.ftime t)] secret nowArg) secret 0 now2
        = Except.ok ()) := by
  refine ⟨fun _ _ _ _ => rfl, fun _ => rfl, fun _ => ⟨rfl, rfl⟩, ?_⟩
  intro sd qid secret u t nowArg now2
  have hnd : ((([("query_id", FieldValue.fstr qid), ("user", FieldValue.fobj u),
      ("auth_date", FieldValue.ftime t)].map
        (fun p => (p.1, FieldValue.encode p.2))).map Prod.fst)).Nodup := by
    simp [List.map_cons]
  show validate sd
    (sign sd
      ([("query_id", FieldValue.fstr qid), ("user", FieldValue.fobj u),
        ("auth_date", FieldValue.ftime t)].map
          (fun p => (p.1, FieldValue.encode p.2))) secret nowArg.toUnix)
    secret 0 now2 = Except.ok ()
  rw [validate_sign_eq sd _ secret nowArg.toUnix 0 now2 hnd]
  simp

theorem joinSep_ne_nil (sep : Char) (parts : List (List Char)) (hne : parts ≠ [])
    (hall : ∀ p ∈ parts, p ≠ []) : joinSep sep parts ≠ [] := by
  cases parts with
  | nil => exact absurd rfl hne
  | cons p ps =>
    cases ps with
    | nil => exact hall p (List.mem_cons_self p [])
    | cons q qs =>
      show p ++ sep :: joinSep sep (q :: qs) ≠ []
      simp

theorem getLast?_joinSep (sep : Char) (parts : List (List Char)) (hne : parts ≠ [])
    (hall : ∀ p ∈ parts, p ≠ []) :
    ∃ p ∈ parts, (joinSep sep parts).getLast? = p.getLast? := by
  induction parts with
  | nil => exact absurd rfl hne
  | cons p ps ih =>
    cases ps with
    | nil => exact ⟨p, List.mem_cons_self p [], rfl⟩
    | cons q qs =>
      obtain ⟨r, hr, heq⟩ := ih (by simp)
        (fun x hx => hall x (List.mem_cons_of_mem p hx))
      refine ⟨r, List.mem_cons_of_mem p hr, ?_⟩
      show (p ++ sep :: joinSep sep (q :: qs)).getLast? = r.getLast?
      rw [List.getLast?_append_of_ne_nil p (by simp)]
      have hnn : joinSep sep (q :: qs) ≠ [] :=
        joinSep_ne_nil sep (q :: qs) (by simp)
          (fun x hx => hall x (List.mem_cons_of_mem p hx))
      cases hjs : joinSep sep (q :: qs) with
      | nil => exact absurd hjs hnn
      | cons y ys =>
        rw [hjs] at heq
        rw [List.getLast?_cons_cons]
        exact heq

/-- C3: the canonical check string is exactly the field set minus the
signature field, sorted by field name in ascending byte-lexicographic
order, each entry rendered `name=value`, joined by single newlines with no
trailing newline: the canonical line list is sorted by name, is a
permutation of the non-signature fields, contains no signature entry, and
(for newline-free well-formed fields) the built string does not end in a
newline. -/
theorem check_string_canonical (fields : List (String × String)) :
    buildCheckString fields
        = ⟨joinSep '\n' ((List.insertionSort nameLe
            (fields.filter (fun p => p.1 ≠ sigField))).map renderField)⟩ ∧
      List.Sorted nameLe
        (List.insertionSort nameLe (fields.filter (fun p => p.1 ≠ sigField))) ∧
      (List.insertionSort nameLe (fields.filter (fun p => p.1 ≠ sigField))).Perm
        (fields.filter (fun p => p.1 ≠ sigField)) ∧
      (∀ p ∈ List.insertionSort nameLe (fields.filter (fun p => p.1 ≠ sigField)),
        p.1 ≠ sigField) ∧
      (fields.filter (fun p => p.1 ≠ sigField) ≠ [] →
        (∀ p ∈ fields, '\n' ∉ p.1.data ∧ '\n' ∉ p.2.data) →
        (buildCheckString fields).data.getLast? ≠ some '\n') := by
  have hperm := List.perm_insertionSort nameLe
    (fields.filter (fun p => p.1 ≠ sigField))
  refine ⟨rfl, List.sorted_insertionSort nameLe _, hperm, ?_, ?_⟩
  · intro p hp
    exact mem_filter_ne fields sigField p (hperm.mem_iff.mp hp)
  · intro hne hnl
    have hLne : List.insertionSort nameLe
        (fields.filter (fun p => p.1 ≠ sigField)) ≠ [] := by
      intro h0
      rw [h0] at hperm
      exact hne hperm.symm.eq_nil
    have hall : ∀ s ∈ (List.insertionSort nameLe
        (fields.filter (fun p => p.1 ≠ sigField))).map renderField, s ≠ [] := by
      rintro s hs
      obtain ⟨p, _, rfl⟩ := List.mem_map.mp hs
      simp [renderField]
    obtain ⟨s, hsmem, heq⟩ := getLast?_joinSep '\n'
      ((List.insertionSort nameLe
        (fields.filter (fun p => p.1 ≠ sigField))).map renderField)
      (by simpa using hLne) hall
    have hdata : (buildCheckString fields).data
        = joinSep '\n' ((List.insertionSort nameLe
            (fields.filter (fun p => p.1 ≠ sigField))).map renderField) := rfl
    rw [hdata, heq]
    obtain ⟨p, hpL, rfl⟩ := List.mem_map.mp hsmem
    have hpfields : p ∈ fields :=
      List.mem_of_mem_filter (hperm.mem_iff.mp hpL)
    have hnlp := hnl p hpfields
    have hnotin : '\n' ∉ renderField p := by
      simp only [renderField, List.mem_append, List.mem_cons]
      rintro (h | h | h)
      · exact hnlp.1 h
      · exact absurd h (by decide)
      · exact hnlp.2 h
    intro hcontra
    exact hnotin (List.mem_of_mem_getLast? hcontra)

theorem check_string_canonical_witness :
    (buildCheckString [("b", "2"), ("a", "1"), ("hash", "x")]).data.getLast?
      ≠ some '\n' :=
  (check_string_canonical [("b", "2"), ("a", "1"), ("hash", "x")]).2.2.2.2
    (by decide) (by decide)

end TelegramInitData
